import Mathlib

/-! Shallow embedding of the auto-video-downloader server repository:
    the job record and pipeline executor of src/server.py, the flat-file job
    store routes of src/server.py, and the worker / filesystem queue backend
    of src/worker/server.py.  External collaborators (yt-dlp, shutil zip
    archiving, the Google Drive client) are modelled as oracle functions in an
    environment record; their invocations are recorded as trace events. -/

/-- Mirrors the `progress` sub-dict of a job record in src/server.py. -/
structure Progress where
  current : Nat
  total : Nat
  current_url : Option String
deriving Repr, DecidableEq

/-- Result shape of drive_api.upload_file / drive_api.make_shareable. -/
structure UploadRes where
  id : String
  webViewLink : Option String
  webContentLink : Option String
deriving Repr, DecidableEq

/-- Shape of the `result` field a done job gets in download_and_process. -/
structure JobResult where
  drive_folder_id : String
  zip_file_id : String
  webViewLink : Option String
  webContentLink : Option String
deriving Repr, DecidableEq

/-- A job record as built by create_job in src/server.py. -/
structure Job where
  id : String
  urls : List String
  name : String
  state : String
  progress : Progress
  result : Option JobResult
  error : Option String
  created_at : Nat
deriving Repr, DecidableEq

/-- Result of one subprocess.run of yt-dlp (capture_output mode). -/
structure DlRes where
  returncode : Int
  stdout : String
  stderr : String
deriving Repr, DecidableEq

/-- Oracle environment for the external collaborators used by
    download_and_process in src/server.py: the yt-dlp binary, the archive step
    (zip_path.unlink plus shutil.make_archive, folded into one fallible call),
    and the three drive_api operations. -/
structure Env where
  run_ytdlp : String → DlRes
  make_archive : Except String Unit
  create_folder : String → Except String String
  upload_file : String → Except String UploadRes
  make_shareable : String → Except String UploadRes

/-- create_job of src/server.py.  The uuid and time.time() are inputs here. -/
def create_job (jid : String) (urls : List String) (name : Option String) (t : Nat) : Job :=
  { id := jid
    urls := urls
    name := name.getD ("batch_" ++ jid.take 8)
    state := "queued"
    progress := { current := 0, total := urls.length, current_url := none }
    result := none
    error := none
    created_at := t }

/-- The error annotation written by the download loop of src/server.py when
    yt-dlp exits non-zero for one URL. -/
def ytdlpErrMsg (u : String) (r : DlRes) : String :=
  "yt-dlp failed for " ++ u ++ ": " ++ toString r.returncode ++
    " stdout:" ++ r.stdout ++ " stderr:" ++ r.stderr

/-- The `res.returncode != 0` test of the download loop. -/
def dlFails (env : Env) (u : String) : Bool :=
  (env.run_ytdlp u).returncode != 0

/-- Observable events of one download_and_process run: persisted snapshots
    (the update_job calls) and invocations of external collaborators. -/
inductive Event where
  | persist (j : Job)
  | runDownloader (url : String)
  | runArchive
  | callCreateFolder (name : String)
  | callUploadFile (parent : String)
  | callShare (fileId : String)
deriving Repr, DecidableEq

/-- The per-URL download loop of download_and_process: before each yt-dlp run
    the progress fields are set and persisted; a non-zero exit records the
    failure message into `error`, persists, and the loop continues. -/
def downloadLoop (env : Env) (total : Nat) : List String → Nat → Job → Job × List Event
  | [], _, job => (job, [])
  | u :: rest, idx, job =>
    let j1 := { job with progress := { current := idx, total := total, current_url := some u } }
    if dlFails env u then
      let j2 := { j1 with error := some (ytdlpErrMsg u (env.run_ytdlp u)) }
      let k := downloadLoop env total rest (idx + 1) j2
      (k.1, Event.persist j1 :: Event.runDownloader u :: Event.persist j2 :: k.2)
    else
      let k := downloadLoop env total rest (idx + 1) j1
      (k.1, Event.persist j1 :: Event.runDownloader u :: k.2)

/-- Outcome of one run of download_and_process: the final in-memory job, the
    ordered event trace, and whether the finally-block removed the per-job
    working directory. -/
structure RunOut where
  final : Job
  trace : List Event
  cleaned : Bool
deriving Repr

/-- download_and_process of src/server.py on an already-loaded job record.
    The try block runs the download loop, then the archive stage, then the
    three drive calls; any stage failure jumps to the except handler which
    sets state `error`; the finally block always removes the working
    directory (`cleaned := true` on every branch). -/
def download_and_process (env : Env) (job0 : Job) : RunOut :=
  let jobR := { job0 with state := "running" }
  let dl := downloadLoop env job0.urls.length job0.urls 1 jobR
  let jz := { dl.1 with state := "zipping" }
  let base := Event.persist jobR :: dl.2 ++ [Event.persist jz, Event.runArchive]
  match env.make_archive with
  | Except.error e =>
    let je := { jz with state := "error", error := some e }
    ⟨je, base ++ [Event.persist je], true⟩
  | Except.ok _ =>
    let ju := { jz with state := "uploading" }
    let base2 := base ++ [Event.persist ju, Event.callCreateFolder jz.name]
    match env.create_folder jz.name with
    | Except.error e =>
      let je := { ju with state := "error", error := some e }
      ⟨je, base2 ++ [Event.persist je], true⟩
    | Except.ok fid =>
      let base3 := base2 ++ [Event.callUploadFile fid]
      match env.upload_file fid with
      | Except.error e =>
        let je := { ju with state := "error", error := some e }
        ⟨je, base3 ++ [Event.persist je], true⟩
      | Except.ok up =>
        let base4 := base3 ++ [Event.callShare up.id]
        match env.make_shareable up.id with
        | Except.error e =>
          let je := { ju with state := "error", error := some e }
          ⟨je, base4 ++ [Event.persist je], true⟩
        | Except.ok share =>
          let res : JobResult :=
            { drive_folder_id := fid
              zip_file_id := share.id
              webViewLink := share.webViewLink
              webContentLink := share.webContentLink }
          let jd := { ju with state := "done", result := some res }
          ⟨jd, base4 ++ [Event.persist jd], true⟩

/-- The persisted snapshots of a trace, in order. -/
def persistedOf (tr : List Event) : List Job :=
  tr.filterMap (fun e => match e with | Event.persist j => some j | _ => none)

/-- All persisted snapshots of one job lifetime: the create_job save followed
    by every update_job save of the pipeline run. -/
def pipelinePersists (env : Env) (jid : String) (urls : List String)
    (name : Option String) (t : Nat) : List Job :=
  create_job jid urls name t ::
    persistedOf (download_and_process env (create_job jid urls name t)).trace

/-- The full event trace of one job lifetime, starting with the create_job
    save. -/
def pipelineTrace (env : Env) (jid : String) (urls : List String)
    (name : Option String) (t : Nat) : List Event :=
  Event.persist (create_job jid urls name t) ::
    (download_and_process env (create_job jid urls name t)).trace

/-- True on the events that invoke the Storage Uploader (drive_api calls). -/
def isUploadCall : Event → Bool
  | Event.callCreateFolder _ => true
  | Event.callUploadFile _ => true
  | Event.callShare _ => true
  | _ => false

/-- The job state an observer polling the store would read after the given
    events: the state of the most recent persisted snapshot. -/
def lastState (cur : String) : List Event → String
  | [] => cur
  | Event.persist j :: rest => lastState j.state rest
  | _ :: rest => lastState cur rest

/-- Checks that every external invocation in the trace happens while the most
    recently persisted state is exactly the lifecycle state naming that
    stage: yt-dlp runs under `running`, the archive step under `zipping`, and
    all drive calls under `uploading`. -/
def traceOk (cur : String) : List Event → Bool
  | [] => true
  | Event.persist j :: rest => traceOk j.state rest
  | Event.runDownloader _ :: rest => (cur == "running") && traceOk cur rest
  | Event.runArchive :: rest => (cur == "zipping") && traceOk cur rest
  | Event.callCreateFolder _ :: rest => (cur == "uploading") && traceOk cur rest
  | Event.callUploadFile _ :: rest => (cur == "uploading") && traceOk cur rest
  | Event.callShare _ :: rest => (cur == "uploading") && traceOk cur rest

/-- The in-memory job map (and, with filename-stem keys, the JOBS_DIR
    directory) of src/server.py, as an association list. -/
abbrev Mem := List (String × Job)

/-- The /status/job_id route of src/server.py: look in the in-memory map,
    fall back to the JOBS_DIR file of that name (caching it in memory), and
    answer 404 (`none`) when both miss.  Returns the response body and the
    updated in-memory map. -/
def status_route (mem disk : Mem) (jid : String) : Option Job × Mem :=
  match mem.lookup jid with
  | some j => (some j, mem)
  | none =>
    match disk.lookup jid with
    | some j => (some j, (jid, j) :: mem)
    | none => (none, mem)

/-- The /enqueue route of src/server.py: reject a missing or empty `urls`
    list with a 400 error body, otherwise create the job, store it in memory
    and on disk, and answer 202 with the job id.  (The background processing
    thread is started after this returns; an immediate poll sees only the
    effects modelled here.) -/
def enqueue_route (mem disk : Mem) (body_urls : Option (List String))
    (body_name : Option String) (jid : String) (t : Nat) :
    Except String String × Mem × Mem :=
  match body_urls with
  | none => (Except.error "send JSON with key 'urls' as a list of video/playlist urls", mem, disk)
  | some [] => (Except.error "send JSON with key 'urls' as a list of video/playlist urls", mem, disk)
  | some urls =>
    let job := create_job jid urls body_name t
    (Except.ok jid, (jid, job) :: mem, (jid, job) :: disk)

/-- _load_existing_jobs of src/server.py: rehydrate every parseable JOBS_DIR
    record into the in-memory map, keyed by the record's own `id` field. -/
def load_existing_jobs (disk : Mem) : Mem :=
  disk.foldl (fun m p => (p.2.id, p.2) :: m) []

/-- The JOBS_DIR path _save_job writes for a given job id. -/
def jobPath (jid : String) : String := "jobs/" ++ jid ++ ".json"

/-- Abbreviated stand-in for the json.dump rendering of a job record written
    by _save_job.  The claims about the store depend only on the rendering
    being a non-empty string that differs between distinct records, not on
    the exact JSON text. -/
def serializeJob (j : Job) : String :=
  "\x7b\"id\": \"" ++ j.id ++ "\", \"state\": \"" ++ j.state ++ "\"\x7d"

/-- Primitive filesystem effects of `open(path, "w")` followed by
    `json.dump(...)` in _save_job of src/server.py (and save_job of
    src/worker/server.py): opening with mode "w" truncates the file in
    place, then the serialized record is written. -/
inductive FsStep where
  | openTrunc (path : String)
  | writeAll (path : String) (data : String)
deriving Repr, DecidableEq

/-- The ordered primitive steps performed by one _save_job call. -/
def save_job_steps (j : Job) : List FsStep :=
  [FsStep.openTrunc (jobPath j.id), FsStep.writeAll (jobPath j.id) (serializeJob j)]

/-- Effect of one primitive step on the filesystem (path contents map). -/
def applyStep (fs : String → Option String) : FsStep → String → Option String
  | FsStep.openTrunc p => fun x => if x = p then some "" else fs x
  | FsStep.writeAll p d => fun x => if x = p then some d else fs x

/-- A job record of src/worker/server.py (an open dict there; the fields the
    worker reads or writes are modelled). -/
structure WJob where
  id : String
  urls : List String
  status : String
  error : Option String
  drive_folder_id : Option String
  zip_id : Option String
deriving Repr, DecidableEq

/-- Oracle environment for the worker's external collaborators: yt-dlp exit
    codes, the Drive folder/file operations, the files os.walk finds in the
    downloaded folder, and the zip_folder archive step. -/
structure WEnv where
  run_ytdlp : String → Int
  create_drive_folder : String → Except String String
  walk_files : List String
  upload_file_to_drive : String → String → Except String String
  zip_folder : Except String Unit

/-- The per-file upload loop of process_job: the first failing upload aborts
    the loop with its message. -/
def uploadAll (env : WEnv) (parent : String) : List String → Except String Unit
  | [] => Except.ok ()
  | f :: fs =>
    match env.upload_file_to_drive f parent with
    | Except.error e => Except.error e
    | Except.ok _ => uploadAll env parent fs

/-- Outcome of one process_job run: final job record, the save_job snapshots
    in order, whether the local working directory was removed, and the
    message of an exception that escaped process_job (the unprotected
    zip_folder call), if any. -/
structure WOut where
  final : WJob
  persisted : List WJob
  cleaned : Bool
  raised : Option String
deriving Repr

/-- process_job of src/worker/server.py on an already-loaded job record.
    Download failures are only printed (the record is not touched); a Drive
    folder-create, per-file upload, or zip upload failure saves status
    `error` and returns without removing the working directory
    (`cleaned := false` on those paths); zip_folder is not wrapped in
    try/except, so its failure escapes as `raised`; only the success path
    removes the folder and the zip. -/
def process_job (env : WEnv) (job : WJob) : WOut :=
  let jr := { job with status := "running" }
  match env.create_drive_folder ("batch_" ++ job.id) with
  | Except.error e =>
    let je := { jr with status := "error", error := some ("Drive folder create failed: " ++ e) }
    ⟨je, [jr, je], false, none⟩
  | Except.ok pid =>
    match uploadAll env pid env.walk_files with
    | Except.error e =>
      let je := { jr with status := "error", error := some ("Upload failed: " ++ e) }
      ⟨je, [jr, je], false, none⟩
    | Except.ok _ =>
      match env.zip_folder with
      | Except.error e => ⟨jr, [jr], false, some e⟩
      | Except.ok _ =>
        match env.upload_file_to_drive (job.id ++ ".zip") pid with
        | Except.error e =>
          let je := { jr with status := "error", error := some ("Zip upload failed: " ++ e) }
          ⟨je, [jr, je], false, none⟩
        | Except.ok zid =>
          let jd := { jr with status := "done", drive_folder_id := some pid, zip_id := some zid }
          ⟨jd, [jr, jd], true, none⟩

/-- The QUEUE_DIR contents in the worker's filesystem mode: filename paired
    with the parsed record the file holds. -/
abbrev QDir := List (String × WJob)

/-- The f.endswith('.json') test of blpop_job, as a character-list suffix
    check (the same predicate; String.endsWith itself does not reduce in the
    kernel). -/
def isJsonFile (f : String) : Bool :=
  (".json".data).isSuffixOf f.data

/-- The .json filenames currently in the queue directory. -/
def jsonFiles (q : QDir) : List String :=
  (q.map Prod.fst).filter isJsonFile

/-- `files.sort(); files[0]`: the lexicographically least filename. -/
def minFile : List String → Option String
  | [] => none
  | f :: fs => some (fs.foldl (fun a b => if b < a then b else a) f)

/-- blpop_job of src/worker/server.py in filesystem mode: list the .json
    files, sort, read the first, and return the `id` stored in it.  The
    function only reads; the returned directory state is unchanged. -/
def blpop_job (q : QDir) : Option String × QDir :=
  match minFile (jsonFiles q) with
  | none => (none, q)
  | some fn => ((q.lookup fn).map (fun j => j.id), q)

/-- save_job of src/worker/server.py in filesystem mode: overwrite (or
    create) QUEUE_DIR/id.json with the record. -/
def save_job_fs (q : QDir) (j : WJob) : QDir :=
  (j.id ++ ".json", j) :: q.filter (fun p => p.1 != j.id ++ ".json")

/-- load_job of src/worker/server.py in filesystem mode. -/
def load_job_fs (q : QDir) (jid : String) : Option WJob :=
  q.lookup (jid ++ ".json")

/-- One iteration of worker_loop: pop an id, load and process the job
    (each save_job of process_job updating the directory in order), and on
    an escaped exception reload the record, mark it `error`, and save.
    Returns the resulting directory and the saved snapshots in order. -/
def worker_iteration (env : WEnv) (q : QDir) : QDir × List WJob :=
  match (blpop_job q).1 with
  | none => (q, [])
  | some jid =>
    match load_job_fs q jid with
    | none => (q, [])
    | some job =>
      let out := process_job env job
      let q1 := out.persisted.foldl save_job_fs q
      match out.raised with
      | none => (q1, out.persisted)
      | some e =>
        let jbase := (load_job_fs q1 jid).getD
          { id := jid, urls := [], status := "", error := none
            drive_folder_id := none, zip_id := none }
        let j2 := { jbase with status := "error", error := some e }
        (save_job_fs q1 j2, out.persisted ++ [j2])

/-- A concrete environment in which yt-dlp fails exactly for the URL "bad"
    and every other stage succeeds. -/
def envOneFail : Env :=
  { run_ytdlp := fun u => if u = "bad" then ⟨1, "", "boom"⟩ else ⟨0, "ok", ""⟩
    make_archive := Except.ok ()
    create_folder := fun _ => Except.ok "folder1"
    upload_file := fun _ => Except.ok ⟨"file1", some "view1", some "dl1"⟩
    make_shareable := fun _ => Except.ok ⟨"file1", some "view2", some "dl2"⟩ }

/-- A concrete environment in which the archive stage raises. -/
def envZipFail : Env :=
  { run_ytdlp := fun _ => ⟨0, "ok", ""⟩
    make_archive := Except.error "zip blew up"
    create_folder := fun _ => Except.ok "folder1"
    upload_file := fun _ => Except.ok ⟨"file1", some "view1", some "dl1"⟩
    make_shareable := fun _ => Except.ok ⟨"file1", some "view2", some "dl2"⟩ }

/-- A concrete job record previously persisted by the store. -/
def jobOldStored : Job := create_job "a" ["u1"] none 5

/-- A later version of the same record, about to be saved over the old one. -/
def jobNewStored : Job :=
  { jobOldStored with state := "done", progress := { current := 1, total := 1, current_url := some "u1" } }

/-- The store contents before the new save: the old record is intact. -/
def fsBefore : String → Option String :=
  fun p => if p = jobPath "a" then some (serializeJob jobOldStored) else none

/-- A concrete worker environment in which creating the Drive folder fails. -/
def wenvFolderFail : WEnv :=
  { run_ytdlp := fun _ => 0
    create_drive_folder := fun _ => Except.error "boom"
    walk_files := []
    upload_file_to_drive := fun _ _ => Except.ok "fid"
    zip_folder := Except.ok () }

/-- A concrete worker environment in which every external operation
    succeeds. -/
def wenvAllOk : WEnv :=
  { run_ytdlp := fun _ => 0
    create_drive_folder := fun _ => Except.ok "fld"
    walk_files := ["f1"]
    upload_file_to_drive := fun _ _ => Except.ok "fid"
    zip_folder := Except.ok () }

/-- A concrete queued worker job record. -/
def wjobQueued : WJob :=
  { id := "a", urls := ["u1"], status := "queued", error := none
    drive_folder_id := none, zip_id := none }

/-- A concrete one-entry filesystem queue directory. -/
def qdirOne : QDir := [("a.json", wjobQueued)]

/-- A concrete two-entry filesystem queue directory (enqueued out of
    lexicographic order). -/
def qdirTwo : QDir :=
  [("b.json", { wjobQueued with id := "b" }), ("a.json", wjobQueued)]

/-- The persisted status strings of two successive worker_loop iterations on
    the one-entry filesystem queue where every external call succeeds. -/
def twoIterStatuses : List String :=
  ((worker_iteration wenvAllOk qdirOne).2 ++
    (worker_iteration wenvAllOk (worker_iteration wenvAllOk qdirOne).1).2).map (fun j => j.status)

/-- Shorthand for the download-loop result inside download_and_process. -/
def dapDl (env : Env) (job0 : Job) : Job × List Event :=
  downloadLoop env job0.urls.length job0.urls 1 { job0 with state := "running" }

/-- The snapshot persisted when entering the zipping stage. -/
def dapJz (env : Env) (job0 : Job) : Job :=
  { (dapDl env job0).1 with state := "zipping" }

/-- The snapshot persisted when entering the uploading stage. -/
def dapJu (env : Env) (job0 : Job) : Job :=
  { dapJz env job0 with state := "uploading" }

lemma downloadLoop_state (env : Env) (total : Nat) :
    ∀ (urls : List String) (idx : Nat) (job : Job),
      (downloadLoop env total urls idx job).1.state = job.state := by
  intro urls
  induction urls with
  | nil => intro idx job; simp [downloadLoop]
  | cons u rest ih =>
    intro idx job
    cases h : dlFails env u <;> simp [downloadLoop, h, ih]

lemma downloadLoop_result (env : Env) (total : Nat) :
    ∀ (urls : List String) (idx : Nat) (job : Job),
      (downloadLoop env total urls idx job).1.result = job.result := by
  intro urls
  induction urls with
  | nil => intro idx job; simp [downloadLoop]
  | cons u rest ih =>
    intro idx job
    cases h : dlFails env u <;> simp [downloadLoop, h, ih]

lemma downloadLoop_name (env : Env) (total : Nat) :
    ∀ (urls : List String) (idx : Nat) (job : Job),
      (downloadLoop env total urls idx job).1.name = job.name := by
  intro urls
  induction urls with
  | nil => intro idx job; simp [downloadLoop]
  | cons u rest ih =>
    intro idx job
    cases h : dlFails env u <;> simp [downloadLoop, h, ih]

lemma downloadLoop_error (env : Env) (total : Nat) :
    ∀ (urls : List String) (idx : Nat) (job : Job),
      (downloadLoop env total urls idx job).1.error =
        (match (urls.filter (dlFails env)).getLast? with
         | none => job.error
         | some u => some (ytdlpErrMsg u (env.run_ytdlp u))) := by
  intro urls
  induction urls with
  | nil => intro idx job; simp [downloadLoop]
  | cons u rest ih =>
    intro idx job
    cases h : dlFails env u
    · simp [downloadLoop, h, List.filter_cons, ih]
    · rw [downloadLoop]
      simp only [h, if_true]
      rw [ih]
      rw [List.filter_cons_of_pos (by simp [h])]
      cases hr : rest.filter (dlFails env) with
      | nil => simp
      | cons v l =>
        cases hg : (v :: l).getLast? with
        | none => simp at hg
        | some w => simp [hg]

lemma downloadLoop_no_upload (env : Env) (total : Nat) :
    ∀ (urls : List String) (idx : Nat) (job : Job) (e : Event),
      e ∈ (downloadLoop env total urls idx job).2 → isUploadCall e = false := by
  intro urls
  induction urls with
  | nil => intro idx job e he; simp [downloadLoop] at he
  | cons u rest ih =>
    intro idx job e he
    cases h : dlFails env u <;> rw [downloadLoop] at he <;> simp only [h] at he
    · simp only [if_false, Bool.false_eq_true, List.mem_cons] at he
      rcases he with rfl | rfl | he
      · rfl
      · rfl
      · exact ih _ _ _ he
    · simp only [if_true, List.mem_cons] at he
      rcases he with rfl | rfl | rfl | he
      · rfl
      · rfl
      · rfl
      · exact ih _ _ _ he

lemma traceOk_append (l2 : List Event) :
    ∀ (l1 : List Event) (cur : String),
      traceOk cur (l1 ++ l2) = (traceOk cur l1 && traceOk (lastState cur l1) l2) := by
  intro l1
  induction l1 with
  | nil => intro cur; simp [traceOk, lastState]
  | cons e rest ih =>
    intro cur
    cases e <;> simp [traceOk, lastState, ih, Bool.and_assoc]

lemma downloadLoop_traceOk (env : Env) (total : Nat) :
    ∀ (urls : List String) (idx : Nat) (job : Job), job.state = "running" →
      traceOk "running" (downloadLoop env total urls idx job).2 = true ∧
      lastState "running" (downloadLoop env total urls idx job).2 = "running" := by
  intro urls
  induction urls with
  | nil => intro idx job _; simp [downloadLoop, traceOk, lastState]
  | cons u rest ih =>
    intro idx job h
    cases hf : dlFails env u
    · have hih := ih (idx + 1)
        { job with progress := { current := idx, total := total, current_url := some u } }
        (by simpa using h)
      rw [h] at hih
      simp [downloadLoop, hf, traceOk, lastState, h, hih.1, hih.2]
    · have hih := ih (idx + 1)
        { job with
            progress := { current := idx, total := total, current_url := some u }
            error := some (ytdlpErrMsg u (env.run_ytdlp u)) }
        (by simpa using h)
      rw [h] at hih
      simp [downloadLoop, hf, traceOk, lastState, h, hih.1, hih.2]

lemma chain_le_of_const (c : Nat) :
    ∀ (l : List Nat), (∀ x ∈ l, x = c) → List.Chain' (· ≤ ·) l := by
  intro l
  induction l with
  | nil => intro _; simp
  | cons a l ih =>
    intro h
    rw [List.chain'_cons']
    refine ⟨?_, ih fun x hx => h x (List.mem_cons_of_mem _ hx)⟩
    intro y hy
    have ha : a = c := h a (List.mem_cons_self _ _)
    have hyc : y = c := h y (List.mem_cons_of_mem _ (List.mem_of_mem_head? hy))
    simp [ha, hyc]

lemma downloadLoop_progress (env : Env) (total : Nat) :
    ∀ (urls : List String) (idx : Nat) (job : Job),
      idx + urls.length = total + 1 →
      job.progress.current + 1 ≤ idx →
      job.progress.total = total →
      (List.Chain' (· ≤ ·)
          (job.progress.current ::
            (persistedOf (downloadLoop env total urls idx job).2).map (fun j => j.progress.current)) ∧
        (∀ j ∈ persistedOf (downloadLoop env total urls idx job).2,
            j.progress.current ≤ j.progress.total) ∧
        (downloadLoop env total urls idx job).1.progress.total = total ∧
        job.progress.current ≤ (downloadLoop env total urls idx job).1.progress.current ∧
        (downloadLoop env total urls idx job).1.progress.current ≤ total ∧
        (job.progress.current ::
            (persistedOf (downloadLoop env total urls idx job).2).map (fun j => j.progress.current)).getLast?
          = some (downloadLoop env total urls idx job).1.progress.current) := by
  intro urls
  induction urls with
  | nil =>
    intro idx job h1 h2 h3
    refine ⟨by simp [downloadLoop, persistedOf], by simp [downloadLoop, persistedOf], ?_, ?_, ?_, ?_⟩
    · simpa [downloadLoop] using h3
    · simp [downloadLoop]
    · simp only [downloadLoop]
      omega
    · simp [downloadLoop, persistedOf]
  | cons u rest ih =>
    intro idx job h1 h2 h3
    have hidx_le : idx ≤ total := by simp at h1; omega
    cases hf : dlFails env u
    · have hih := ih (idx + 1)
        { job with progress := { current := idx, total := total, current_url := some u } }
        (by simp at h1 ⊢; omega) (by simp) (by simp)
      simp only [downloadLoop, hf, Bool.false_eq_true, if_false] at *
      obtain ⟨c1, c2, c3, c4, c5, c6⟩ := hih
      simp only [persistedOf, List.filterMap_cons, List.map_cons] at *
      refine ⟨?_, ?_, c3, ?_, c5, ?_⟩
      · rw [List.chain'_cons]
        exact ⟨by omega, c1⟩
      · intro j hj
        rcases List.mem_cons.mp hj with rfl | hj
        · simpa using hidx_le
        · exact c2 j hj
      · omega
      · rw [List.getLast?_cons_cons]
        exact c6
    · have hih := ih (idx + 1)
        { job with
            progress := { current := idx, total := total, current_url := some u }
            error := some (ytdlpErrMsg u (env.run_ytdlp u)) }
        (by simp at h1 ⊢; omega) (by simp) (by simp)
      simp only [downloadLoop, hf, if_true] at *
      obtain ⟨c1, c2, c3, c4, c5, c6⟩ := hih
      simp only [persistedOf, List.filterMap_cons, List.map_cons] at *
      refine ⟨?_, ?_, c3, ?_, c5, ?_⟩
      · rw [List.chain'_cons, List.chain'_cons]
        exact ⟨by omega, by omega, c1⟩
      · intro j hj
        rcases List.mem_cons.mp hj with rfl | hj
        · simpa using hidx_le
        · rcases List.mem_cons.mp hj with rfl | hj
          · simpa using hidx_le
          · exact c2 j hj
      · omega
      · rw [List.getLast?_cons_cons, List.getLast?_cons_cons]
        exact c6

lemma lastState_append (l2 : List Event) :
    ∀ (l1 : List Event) (cur : String),
      lastState cur (l1 ++ l2) = lastState (lastState cur l1) l2 := by
  intro l1
  induction l1 with
  | nil => intro cur; simp [lastState]
  | cons e rest ih => intro cur; cases e <;> simp [lastState, ih]

lemma dap_cleaned (env : Env) (job0 : Job) :
    (download_and_process env job0).cleaned = true := by
  simp only [download_and_process]
  split
  · rfl
  · split
    · rfl
    · split
      · rfl
      · split <;> rfl

lemma dap_archive_error (env : Env) (job0 : Job) (e : String)
    (harch : env.make_archive = Except.error e) :
    (download_and_process env job0).final.state = "error" ∧
    (download_and_process env job0).final.error = some e ∧
    (download_and_process env job0).final.result = job0.result ∧
    ∀ ev ∈ (download_and_process env job0).trace, isUploadCall ev = false := by
  refine ⟨?_, ?_, ?_, ?_⟩
  · simp [download_and_process, harch]
  · simp [download_and_process, harch]
  · simp [download_and_process, harch, downloadLoop_result]
  · intro ev hev
    simp only [download_and_process, harch, List.mem_cons, List.mem_append,
      List.mem_singleton] at hev
    rcases hev with ((rfl | hev) | rfl | (rfl | hnil)) | (rfl | hnil)
    · rfl
    · exact downloadLoop_no_upload env _ _ _ _ _ hev
    · rfl
    · rfl
    · exact absurd hnil (List.not_mem_nil ev)
    · rfl
    · exact absurd hnil (List.not_mem_nil ev)

lemma dap_all_ok (env : Env) (job0 : Job) (fid : String) (up share : UploadRes)
    (harch : env.make_archive = Except.ok ())
    (hcf : env.create_folder job0.name = Except.ok fid)
    (hup : env.upload_file fid = Except.ok up)
    (hsh : env.make_shareable up.id = Except.ok share) :
    (download_and_process env job0).final.state = "done" ∧
    (download_and_process env job0).final.result =
      some { drive_folder_id := fid, zip_file_id := share.id,
             webViewLink := share.webViewLink, webContentLink := share.webContentLink } ∧
    (download_and_process env job0).final.error =
      (match (job0.urls.filter (dlFails env)).getLast? with
       | none => job0.error
       | some u => some (ytdlpErrMsg u (env.run_ytdlp u))) := by
  refine ⟨?_, ?_, ?_⟩
  · simp [download_and_process, harch, downloadLoop_name, hcf, hup, hsh]
  · simp [download_and_process, harch, downloadLoop_name, hcf, hup, hsh]
  · simp [download_and_process, harch, downloadLoop_name, hcf, hup, hsh, downloadLoop_error]

lemma chain_le_append_const (a c : Nat) (l tail : List Nat)
    (h1 : List.Chain' (· ≤ ·) (a :: l)) (h2 : (a :: l).getLast? = some c)
    (h3 : ∀ x ∈ tail, x = c) :
    List.Chain' (· ≤ ·) (a :: (l ++ tail)) := by
  have hmid : ∀ x ∈ (a :: l).getLast?, ∀ y ∈ tail.head?, x ≤ y := by
    intro x hx y hy
    rw [h2] at hx
    simp at hx
    subst hx
    have : y = c := h3 y (List.mem_of_mem_head? hy)
    omega
  have := List.Chain'.append h1 (chain_le_of_const c tail h3) hmid
  simpa using this

lemma dap_persists_shape (env : Env) (job0 : Job) :
    ∃ tail : List Job,
      persistedOf (download_and_process env job0).trace =
        { job0 with state := "running" } ::
          (persistedOf (downloadLoop env job0.urls.length job0.urls 1
              { job0 with state := "running" }).2 ++ tail) ∧
      ∀ j ∈ tail, j.progress =
        (downloadLoop env job0.urls.length job0.urls 1
          { job0 with state := "running" }).1.progress := by
  simp only [download_and_process]
  split
  next e harch =>
    refine ⟨[dapJz env job0, { dapJz env job0 with state := "error", error := some e }], ?_, ?_⟩
    · simp [persistedOf, dapJz, dapDl, List.filterMap_cons, List.filterMap_append]
    · intro j hj
      rcases List.mem_cons.mp hj with rfl | hj
      · simp [dapJz, dapDl]
      · rcases List.mem_cons.mp hj with rfl | hj
        · simp [dapJz, dapDl]
        · exact absurd hj (List.not_mem_nil j)
  next harch =>
    split
    next e hcf =>
      refine ⟨[dapJz env job0, dapJu env job0,
        { dapJu env job0 with state := "error", error := some e }], ?_, ?_⟩
      · simp [persistedOf, dapJz, dapJu, dapDl, List.filterMap_cons, List.filterMap_append]
      · intro j hj
        rcases List.mem_cons.mp hj with rfl | hj
        · simp [dapJz, dapDl]
        · rcases List.mem_cons.mp hj with rfl | hj
          · simp [dapJz, dapJu, dapDl]
          · rcases List.mem_cons.mp hj with rfl | hj
            · simp [dapJz, dapJu, dapDl]
            · exact absurd hj (List.not_mem_nil j)
    next fid hcf =>
      split
      next e hup =>
        refine ⟨[dapJz env job0, dapJu env job0,
          { dapJu env job0 with state := "error", error := some e }], ?_, ?_⟩
        · simp [persistedOf, dapJz, dapJu, dapDl, List.filterMap_cons, List.filterMap_append]
        · intro j hj
          rcases List.mem_cons.mp hj with rfl | hj
          · simp [dapJz, dapDl]
          · rcases List.mem_cons.mp hj with rfl | hj
            · simp [dapJz, dapJu, dapDl]
            · rcases List.mem_cons.mp hj with rfl | hj
              · simp [dapJz, dapJu, dapDl]
              · exact absurd hj (List.not_mem_nil j)
      next up hup =>
        split
        next e hsh =>
          refine ⟨[dapJz env job0, dapJu env job0,
            { dapJu env job0 with state := "error", error := some e }], ?_, ?_⟩
          · simp [persistedOf, dapJz, dapJu, dapDl, List.filterMap_cons, List.filterMap_append]
          · intro j hj
            rcases List.mem_cons.mp hj with rfl | hj
            · simp [dapJz, dapDl]
            · rcases List.mem_cons.mp hj with rfl | hj
              · simp [dapJz, dapJu, dapDl]
              · rcases List.mem_cons.mp hj with rfl | hj
                · simp [dapJz, dapJu, dapDl]
                · exact absurd hj (List.not_mem_nil j)
        next share hsh =>
          refine ⟨[dapJz env job0, dapJu env job0,
            { dapJu env job0 with
                state := "done"
                result := some
                  { drive_folder_id := fid
                    zip_file_id := share.id
                    webViewLink := share.webViewLink
                    webContentLink := share.webContentLink } }], ?_, ?_⟩
          · simp [persistedOf, dapJz, dapJu, dapDl, List.filterMap_cons, List.filterMap_append]
          · intro j hj
            rcases List.mem_cons.mp hj with rfl | hj
            · simp [dapJz, dapDl]
            · rcases List.mem_cons.mp hj with rfl | hj
              · simp [dapJz, dapJu, dapDl]
              · rcases List.mem_cons.mp hj with rfl | hj
                · simp [dapJz, dapJu, dapDl]
                · exact absurd hj (List.not_mem_nil j)

lemma dap_progress (env : Env) (job0 : Job)
    (h0 : job0.progress.current = 0) (ht : job0.progress.total = job0.urls.length) :
    List.Chain' (· ≤ ·)
        ((job0 :: persistedOf (download_and_process env job0).trace).map (fun j => j.progress.current)) ∧
    ∀ j ∈ job0 :: persistedOf (download_and_process env job0).trace,
        j.progress.current ≤ j.progress.total := by
  obtain ⟨c1, c2, c3, c4, c5, c6⟩ := downloadLoop_progress env job0.urls.length job0.urls 1
      { job0 with state := "running" } (by omega) (by simp [h0]) (by simpa using ht)
  obtain ⟨tail, hshape, htail⟩ := dap_persists_shape env job0
  dsimp only at c1 c4 c6
  constructor
  · rw [hshape]
    simp only [List.map_cons, List.map_append]
    rw [List.chain'_cons]
    refine ⟨le_refl _, ?_⟩
    refine chain_le_append_const _ _ _ _ c1 c6 ?_
    intro x hx
    obtain ⟨j, hj, rfl⟩ := List.mem_map.mp hx
    rw [htail j hj]
  · intro j hj
    rcases List.mem_cons.mp hj with rfl | hj
    · rw [h0]; exact Nat.zero_le _
    · rw [hshape] at hj
      rcases List.mem_cons.mp hj with rfl | hj
      · simp only []
        rw [show ({ job0 with state := "running" } : Job).progress = job0.progress from rfl, h0]
        exact Nat.zero_le _
      · rcases List.mem_append.mp hj with hj | hj
        · exact c2 j hj
        · rw [htail j hj, c3]
          exact c5

lemma dap_trace_shape (env : Env) (job0 : Job) :
    ∃ rest : List Event,
      (download_and_process env job0).trace =
        Event.persist { job0 with state := "running" } ::
          ((downloadLoop env job0.urls.length job0.urls 1 { job0 with state := "running" }).2 ++
            (Event.persist (dapJz env job0) :: Event.runArchive :: rest)) ∧
      traceOk "zipping" rest = true := by
  simp only [download_and_process]
  split
  next e harch =>
    refine ⟨[Event.persist { dapJz env job0 with state := "error", error := some e }], ?_, ?_⟩
    · simp [dapJz, dapDl]
    · simp [traceOk]
  next harch =>
    split
    next e hcf =>
      refine ⟨Event.persist (dapJu env job0) ::
        Event.callCreateFolder (dapJz env job0).name ::
        [Event.persist { dapJu env job0 with state := "error", error := some e }], ?_, ?_⟩
      · simp [dapJz, dapJu, dapDl]
      · simp [traceOk, dapJu, dapJz]
    next fid hcf =>
      split
      next e hup =>
        refine ⟨Event.persist (dapJu env job0) ::
          Event.callCreateFolder (dapJz env job0).name ::
          Event.callUploadFile fid ::
          [Event.persist { dapJu env job0 with state := "error", error := some e }], ?_, ?_⟩
        · simp [dapJz, dapJu, dapDl]
        · simp [traceOk, dapJu, dapJz]
      next up hup =>
        split
        next e hsh =>
          refine ⟨Event.persist (dapJu env job0) ::
            Event.callCreateFolder (dapJz env job0).name ::
            Event.callUploadFile fid ::
            Event.callShare up.id ::
            [Event.persist { dapJu env job0 with state := "error", error := some e }], ?_, ?_⟩
          · simp [dapJz, dapJu, dapDl]
          · simp [traceOk, dapJu, dapJz]
        next share hsh =>
          refine ⟨Event.persist (dapJu env job0) ::
            Event.callCreateFolder (dapJz env job0).name ::
            Event.callUploadFile fid ::
            Event.callShare up.id ::
            [Event.persist { dapJu env job0 with
              state := "done"
              result := some
                { drive_folder_id := fid
                  zip_file_id := share.id
                  webViewLink := share.webViewLink
                  webContentLink := share.webContentLink } }], ?_, ?_⟩
          · simp [dapJz, dapJu, dapDl]
          · simp [traceOk, dapJu, dapJz]

lemma dap_traceOk (env : Env) (job0 : Job) (cur : String) :
    traceOk cur (download_and_process env job0).trace = true := by
  obtain ⟨rest, hsh, hrest⟩ := dap_trace_shape env job0
  obtain ⟨hok, hls⟩ := downloadLoop_traceOk env job0.urls.length job0.urls 1
    { job0 with state := "running" } rfl
  rw [hsh]
  simp [traceOk, traceOk_append, lastState_append, hok, hls, hrest, lastState, dapJz]

lemma lookup_load_existing_none (jid : String) :
    ∀ (disk : Mem) (acc : Mem),
      (∀ p ∈ disk, (Prod.snd p).id ≠ jid) → acc.lookup jid = none →
      (disk.foldl (fun m p => (p.2.id, p.2) :: m) acc).lookup jid = none := by
  intro disk
  induction disk with
  | nil => intro acc _ hacc; simpa using hacc
  | cons p rest ih =>
    intro acc hall hacc
    simp only [List.foldl_cons]
    refine ih _ (fun q hq => hall q (List.mem_cons_of_mem _ hq)) ?_
    have hne : (jid == p.2.id) = false := by
      simpa using Ne.symm (hall p (List.mem_cons_self _ _))
    simp [List.lookup, hne, hacc]

lemma foldl_min_mem :
    ∀ (fs : List String) (a : String),
      fs.foldl (fun x b => if b < x then b else x) a ∈ a :: fs := by
  intro fs
  induction fs with
  | nil => intro a; simp
  | cons b fs ih =>
    intro a
    simp only [List.foldl_cons]
    rcases List.mem_cons.mp (ih (if b < a then b else a)) with h | h
    · rw [h]
      by_cases hb : b < a
      · simp [hb]
      · simp [hb]
    · exact List.mem_cons_of_mem _ (List.mem_cons_of_mem _ h)

lemma foldl_min_le :
    ∀ (fs : List String) (a x : String), x ∈ a :: fs →
      fs.foldl (fun y b => if b < y then b else y) a ≤ x := by
  intro fs
  induction fs with
  | nil =>
    intro a x hx
    simp at hx
    subst hx
    exact le_refl _
  | cons b fs ih =>
    intro a x hx
    simp only [List.foldl_cons]
    have hstep : (if b < a then b else a) ≤ a ∧ (if b < a then b else a) ≤ b := by
      by_cases hb : b < a
      · rw [if_pos hb]
        exact ⟨le_of_lt hb, le_refl b⟩
      · rw [if_neg hb]
        exact ⟨le_refl a, le_of_not_lt hb⟩
    rcases List.mem_cons.mp hx with rfl | hx
    · exact le_trans (ih _ _ (List.mem_cons_self _ _)) hstep.1
    · rcases List.mem_cons.mp hx with rfl | hx
      · exact le_trans (ih _ _ (List.mem_cons_self _ _)) hstep.2
      · exact ih _ _ (List.mem_cons_of_mem _ hx)

lemma lookup_isSome_of_mem :
    ∀ (q : QDir) (fn : String), fn ∈ q.map Prod.fst → ∃ j, q.lookup fn = some j := by
  intro q
  induction q with
  | nil => intro fn h; simp at h
  | cons p rest ih =>
    intro fn h
    rw [List.map_cons] at h
    cases hbe : (fn == p.1)
    · have h1 : fn ∈ rest.map Prod.fst := by
        rcases List.mem_cons.mp h with h1 | h1
        · exact absurd (by simp [h1] : (fn == p.1) = true) (by simp [hbe])
        · exact h1
      obtain ⟨j, hj⟩ := ih fn h1
      refine ⟨j, ?_⟩
      simp [List.lookup, hbe, hj]
    · refine ⟨p.2, ?_⟩
      simp [List.lookup, hbe]

lemma save_job_fs_keeps (q : QDir) (j : WJob) :
    ∀ fn ∈ q.map Prod.fst, fn ∈ (save_job_fs q j).map Prod.fst := by
  intro fn hfn
  by_cases he : fn = j.id ++ ".json"
  · simp [save_job_fs, he]
  · simp only [save_job_fs, List.map_cons, List.mem_cons]
    right
    obtain ⟨p, hp, rfl⟩ := List.mem_map.mp hfn
    exact List.mem_map.mpr ⟨p, List.mem_filter.mpr ⟨hp, by simpa using he⟩, rfl⟩

lemma blpop_preserves (q : QDir) : (blpop_job q).2 = q := by
  unfold blpop_job
  split <;> rfl

/-- C1: for a job whose URL list has at least two entries, if yt-dlp fails
    for exactly one entry and succeeds for all others, and the archive and
    upload stages succeed, the job ends in state `done`, its `error` field is
    non-empty and holds the failed URL's message, and `result` is populated
    with the folder id, file id and share links. -/
theorem claim1_one_bad_url_still_done (env : Env) (jid : String) (urls : List String)
    (name : Option String) (t : Nat) (fid : String) (up share : UploadRes)
    (hn : 2 ≤ urls.length)
    (hone : (urls.filter (dlFails env)).length = 1)
    (harch : env.make_archive = Except.ok ())
    (hcf : env.create_folder (create_job jid urls name t).name = Except.ok fid)
    (hup : env.upload_file fid = Except.ok up)
    (hsh : env.make_shareable up.id = Except.ok share) :
    (download_and_process env (create_job jid urls name t)).final.state = "done" ∧
    (download_and_process env (create_job jid urls name t)).final.result =
      some { drive_folder_id := fid, zip_file_id := share.id,
             webViewLink := share.webViewLink, webContentLink := share.webContentLink } ∧
    (download_and_process env (create_job jid urls name t)).final.error ≠ none ∧
    ∃ u ∈ urls, dlFails env u = true ∧
      (download_and_process env (create_job jid urls name t)).final.error =
        some (ytdlpErrMsg u (env.run_ytdlp u)) := by
  obtain ⟨s1, s2, s3⟩ := dap_all_ok env (create_job jid urls name t) fid up share harch hcf hup hsh
  obtain ⟨u, hu⟩ := List.length_eq_one.mp hone
  have humem : u ∈ urls.filter (dlFails env) := by simp [hu]
  have h1 := List.mem_filter.mp humem
  have hurls : (create_job jid urls name t).urls = urls := rfl
  rw [hurls, hu, List.getLast?_singleton] at s3
  exact ⟨s1, s2, by rw [s3]; simp, ⟨u, h1.1, h1.2, s3⟩⟩

/-- Witness for C1 at a concrete two-URL batch where only "bad" fails. -/
theorem claim1_witness :
    2 ≤ (["good", "bad"] : List String).length ∧
    ((["good", "bad"] : List String).filter (dlFails envOneFail)).length = 1 ∧
    (download_and_process envOneFail (create_job "j1" ["good", "bad"] none 0)).final.state = "done" ∧
    (download_and_process envOneFail (create_job "j1" ["good", "bad"] none 0)).final.error ≠ none := by
  have h := claim1_one_bad_url_still_done envOneFail "j1" ["good", "bad"] none 0 "folder1"
      ⟨"file1", some "view1", some "dl1"⟩ ⟨"file1", some "view2", some "dl2"⟩
      (by decide) (by decide) rfl rfl rfl rfl
  exact ⟨by decide, by decide, h.1, h.2.2.1⟩

/-- C2: if the archive stage raises, the job ends in state `error` with the
    triggering message in `error`, `result` stays None, and no Storage
    Uploader operation (folder create, file upload, share grant) is ever
    invoked. -/
theorem claim2_archive_failure_fatal (env : Env) (jid : String) (urls : List String)
    (name : Option String) (t : Nat) (e : String)
    (harch : env.make_archive = Except.error e) :
    (download_and_process env (create_job jid urls name t)).final.state = "error" ∧
    (download_and_process env (create_job jid urls name t)).final.error = some e ∧
    (download_and_process env (create_job jid urls name t)).final.result = none ∧
    ∀ ev ∈ (download_and_process env (create_job jid urls name t)).trace,
      isUploadCall ev = false := by
  have h := dap_archive_error env (create_job jid urls name t) e harch
  exact ⟨h.1, h.2.1, h.2.2.1, h.2.2.2⟩

/-- Witness for C2 at a concrete job whose archive step raises. -/
theorem claim2_witness :
    envZipFail.make_archive = Except.error "zip blew up" ∧
    (download_and_process envZipFail (create_job "j1" ["u1"] none 0)).final.state = "error" ∧
    (download_and_process envZipFail (create_job "j1" ["u1"] none 0)).final.result = none := by
  have h := claim2_archive_failure_fatal envZipFail "j1" ["u1"] none 0 "zip blew up" rfl
  exact ⟨rfl, h.1, h.2.2.1⟩

/-- C5: over the persisted snapshots of a job's lifetime, progress.current is
    0 at creation, never decreases, and never exceeds progress.total. -/
theorem claim5_progress_monotone (env : Env) (jid : String) (urls : List String)
    (name : Option String) (t : Nat) :
    ((pipelinePersists env jid urls name t).map (fun j => j.progress.current)).head? = some 0 ∧
    List.Chain' (· ≤ ·)
      ((pipelinePersists env jid urls name t).map (fun j => j.progress.current)) ∧
    ∀ j ∈ pipelinePersists env jid urls name t, j.progress.current ≤ j.progress.total := by
  obtain ⟨hc, hb⟩ := dap_progress env (create_job jid urls name t) rfl rfl
  simp only [pipelinePersists]
  exact ⟨rfl, hc, hb⟩

/-- C6: every external invocation of the pipeline happens when the most
    recently persisted state is exactly the lifecycle state naming that
    stage, so a poller never observes a state ahead of the work in flight. -/
theorem claim6_state_persisted_before_work (env : Env) (jid : String) (urls : List String)
    (name : Option String) (t : Nat) :
    traceOk "queued" (pipelineTrace env jid urls name t) = true := by
  simp only [pipelineTrace, traceOk]
  exact dap_traceOk env _ _

/-- C8: a valid submission (non-empty URL list) is answered with the job id,
    and an immediate poll of that id returns the created record in state
    `queued`. -/
theorem claim8_submit_then_poll_queued (mem disk : Mem) (urls : List String)
    (nm : Option String) (jid : String) (t : Nat) (hne : urls ≠ []) :
    (enqueue_route mem disk (some urls) nm jid t).1 = Except.ok jid ∧
    (status_route (enqueue_route mem disk (some urls) nm jid t).2.1
        (enqueue_route mem disk (some urls) nm jid t).2.2 jid).1 =
      some (create_job jid urls nm t) ∧
    (create_job jid urls nm t).state = "queued" := by
  cases urls with
  | nil => exact absurd rfl hne
  | cons u us =>
    refine ⟨rfl, ?_, rfl⟩
    simp [enqueue_route, status_route, List.lookup]

/-- Witness for C8 at a concrete one-URL submission into empty stores. -/
theorem claim8_witness :
    ((["u1"] : List String) ≠ []) ∧
    (enqueue_route [] [] (some ["u1"]) none "j1" 0).1 = Except.ok "j1" ∧
    (status_route (enqueue_route [] [] (some ["u1"]) none "j1" 0).2.1
        (enqueue_route [] [] (some ["u1"]) none "j1" 0).2.2 "j1").1 =
      some (create_job "j1" ["u1"] none 0) := by
  have h := claim8_submit_then_poll_queued [] [] ["u1"] none "j1" 0 (by simp)
  exact ⟨by simp, h.1, h.2.1⟩

/-- C9: polling an identifier that was never created or persisted answers
    NotFound, both against the current in-memory/disk stores and immediately
    after a restart that rehydrated the in-memory map from disk. -/
theorem claim9_unknown_id_not_found (mem disk : Mem) (jid : String)
    (hmem : mem.lookup jid = none)
    (hdisk : disk.lookup jid = none)
    (hid : ∀ p ∈ disk, (Prod.snd p).id ≠ jid) :
    (status_route mem disk jid).1 = none ∧
    (status_route (load_existing_jobs disk) disk jid).1 = none := by
  constructor
  · simp [status_route, hmem, hdisk]
  · have h := lookup_load_existing_none jid disk [] hid rfl
    simp [status_route, load_existing_jobs, h, hdisk]

/-- Witness for C9 at concrete stores holding only records keyed and
    identified by names other than the polled id. -/
theorem claim9_witness :
    (([("b", jobOldStored)] : Mem).lookup "x" = none) ∧
    (status_route [("b", jobOldStored)] [("c", jobNewStored)] "x").1 = none ∧
    (status_route (load_existing_jobs [("c", jobNewStored)]) [("c", jobNewStored)] "x").1 = none := by
  have h := claim9_unknown_id_not_found [("b", jobOldStored)] [("c", jobNewStored)] "x"
      (by decide) (by decide) (by decide)
  exact ⟨by decide, h.1, h.2⟩

/-- C10: the filesystem-queue pop reads the lexicographically least .json
    file and returns the id stored in it without modifying the directory, so
    two successive pops over an unchanged non-empty queue return the same
    identifier, and saving a completed job (save_job overwrites id.json in
    place) never removes any queue entry. -/
theorem claim10_fs_pop_does_not_remove :
    (∀ q : QDir, (blpop_job q).2 = q) ∧
    (∀ (q : QDir) (fn : String), minFile (jsonFiles q) = some fn →
        (∀ x ∈ jsonFiles q, fn ≤ x) ∧
        (blpop_job q).1 = (q.lookup fn).map (fun j => j.id)) ∧
    (∀ (q : QDir) (fn : String) (j : WJob), (fn, j) ∈ q → isJsonFile fn = true →
        ∃ i, (blpop_job q).1 = some i ∧ (blpop_job (blpop_job q).2).1 = some i) ∧
    (∀ (q : QDir) (j : WJob), ∀ fn ∈ q.map Prod.fst, fn ∈ (save_job_fs q j).map Prod.fst) := by
  refine ⟨blpop_preserves, ?_, ?_, save_job_fs_keeps⟩
  · intro q fn hmin
    constructor
    · intro x hx
      cases hj : jsonFiles q with
      | nil =>
        rw [hj] at hmin
        simp [minFile] at hmin
      | cons f fs =>
        rw [hj] at hmin hx
        simp only [minFile, Option.some.injEq] at hmin
        exact hmin ▸ foldl_min_le fs f x hx
    · simp [blpop_job, hmin]
  · intro q fn j hq hjson
    have hfn : fn ∈ q.map Prod.fst := List.mem_map.mpr ⟨(fn, j), hq, rfl⟩
    have hjf : fn ∈ jsonFiles q := by
      simp only [jsonFiles]
      exact List.mem_filter.mpr ⟨hfn, hjson⟩
    obtain ⟨f, fs, hj⟩ : ∃ f fs, jsonFiles q = f :: fs := by
      cases hjq : jsonFiles q with
      | nil => rw [hjq] at hjf; simp at hjf
      | cons f fs => exact ⟨f, fs, rfl⟩
    have hmin : minFile (jsonFiles q) =
        some (fs.foldl (fun a b => if b < a then b else a) f) := by
      rw [hj]
      rfl
    have hmem : fs.foldl (fun a b => if b < a then b else a) f ∈ jsonFiles q := by
      rw [hj]
      exact foldl_min_mem fs f
    have hmq : fs.foldl (fun a b => if b < a then b else a) f ∈ q.map Prod.fst := by
      simp only [jsonFiles] at hmem
      exact (List.mem_filter.mp hmem).1
    obtain ⟨j0, hj0⟩ := lookup_isSome_of_mem q _ hmq
    refine ⟨j0.id, ?_, ?_⟩
    · simp only [blpop_job, hmin, hj0, Option.map_some']
    · rw [blpop_preserves]
      simp only [blpop_job, hmin, hj0, Option.map_some']

/-- Witness for C10 at a concrete two-file queue directory enqueued out of
    lexicographic order. -/
theorem claim10_witness :
    (blpop_job qdirTwo).2 = qdirTwo ∧
    (("a.json", wjobQueued) ∈ qdirTwo ∧ isJsonFile "a.json" = true) ∧
    (∃ i, (blpop_job qdirTwo).1 = some i ∧ (blpop_job (blpop_job qdirTwo).2).1 = some i) ∧
    ("b.json" ∈ (save_job_fs qdirTwo wjobQueued).map Prod.fst) := by
  have h := claim10_fs_pop_does_not_remove
  exact ⟨h.1 qdirTwo, ⟨by decide, by decide⟩,
    h.2.2.1 qdirTwo "a.json" wjobQueued (by decide) (by decide),
    h.2.2.2 qdirTwo wjobQueued "b.json" (by decide)⟩

/-- C3 (code bug): _save_job opens the job file with mode "w", truncating it
    in place, then writes the record: after the truncation step of a put over
    a previously good record, a concurrent or subsequent get observes empty
    content, which is neither the old record nor the new one; only a put that
    runs to completion replaces the record.  Atomic-replace semantics do not
    hold. -/
theorem claim3_put_truncate_observable :
    ((save_job_steps jobNewStored).take 1).foldl applyStep fsBefore (jobPath "a") = some "" ∧
    serializeJob jobOldStored ≠ "" ∧
    serializeJob jobNewStored ≠ "" ∧
    serializeJob jobOldStored ≠ serializeJob jobNewStored ∧
    (∀ (fs : String → Option String) (j : Job),
        ((save_job_steps j).foldl applyStep fs) (jobPath j.id) = some (serializeJob j)) := by
  refine ⟨rfl, by decide, by decide, by decide, ?_⟩
  intro fs j
  simp [save_job_steps, applyStep]

/-- C4 (code bug): the server executor download_and_process removes the
    per-job working directory on every exit path (its finally block), but the
    worker executor process_job returns from its fatal-failure paths without
    removing the directory: when the Drive folder create fails, the job ends
    in status `error` and the cleanup code is never reached. -/
theorem claim4_worker_skips_cleanup_on_error :
    (∀ (env : Env) (job0 : Job), (download_and_process env job0).cleaned = true) ∧
    (process_job wenvFolderFail wjobQueued).final.status = "error" ∧
    (process_job wenvFolderFail wjobQueued).cleaned = false :=
  ⟨dap_cleaned, rfl, rfl⟩

/-- C7 (code bug): because the filesystem-queue pop never removes the queue
    file, the next worker iteration re-pops a completed job and process_job
    persists status running again after done: over two iterations on a
    one-job queue where every external call succeeds, the persisted status
    sequence is running, done, running, done, so the terminal value done at
    index 1 is followed by running at index 2. -/
theorem claim7_done_regresses_to_running :
    twoIterStatuses = ["running", "done", "running", "done"] ∧
    twoIterStatuses.getD 1 "" = "done" ∧
    twoIterStatuses.getD 2 "" = "running" := by
  refine ⟨?_, ?_, ?_⟩ <;> rfl
